import Mathlib

/-!
Shallow embedding of the statistics layer of the dashboard repository:
`src/js/stats.js` together with the Kaplan-Meier / RMST / hazard-ratio /
ROC / precision-recall routines of the charts module
(`src/unnamed/part_000`).

Modelling conventions.
JavaScript numbers are modelled as exact rationals wherever the source can
only produce finite values, and as the four-case type `JSNum`
(finite, +Infinity, -Infinity, NaN) wherever the source can divide by zero,
so that the Infinity/NaN behaviour of the source is visible in the model.
`Math.sqrt` and `Math.exp` applied to a finite argument are irrational in
general, so they are passed in as function parameters (`sqrtFn`, `expFn`);
each theorem assumes only the properties of those functions that it needs
(for example that a square root of a nonnegative number is nonnegative),
properties that the real functions satisfy.
-/

/-- Model of a JavaScript IEEE-754 number: an exact finite rational, one of
the two infinities, or NaN.  Negative zero is not distinguished from zero;
none of the embedded code branches on the sign of a zero. -/
inductive JSNum where
  | fin (q : ℚ)
  | inf
  | ninf
  | nan
deriving DecidableEq, Repr

namespace JSNum

/-- JavaScript unary minus. -/
def neg : JSNum → JSNum
  | fin q => fin (-q)
  | inf => ninf
  | ninf => inf
  | nan => nan

/-- JavaScript addition. -/
def add : JSNum → JSNum → JSNum
  | fin a, fin b => fin (a + b)
  | fin _, inf => inf
  | fin _, ninf => ninf
  | inf, fin _ => inf
  | ninf, fin _ => ninf
  | inf, inf => inf
  | ninf, ninf => ninf
  | inf, ninf => nan
  | ninf, inf => nan
  | nan, _ => nan
  | _, nan => nan

/-- JavaScript subtraction. -/
def sub (a b : JSNum) : JSNum := add a (neg b)

/-- JavaScript multiplication; a product of zero and an infinity is NaN. -/
def mul : JSNum → JSNum → JSNum
  | fin a, fin b => fin (a * b)
  | fin a, inf => if 0 < a then inf else if a < 0 then ninf else nan
  | fin a, ninf => if 0 < a then ninf else if a < 0 then inf else nan
  | inf, fin b => if 0 < b then inf else if b < 0 then ninf else nan
  | ninf, fin b => if 0 < b then ninf else if b < 0 then inf else nan
  | inf, inf => inf
  | ninf, ninf => inf
  | inf, ninf => ninf
  | ninf, inf => ninf
  | nan, _ => nan
  | _, nan => nan

/-- JavaScript division; a finite nonzero number divided by zero is a signed
infinity and `0 / 0` is NaN. -/
def div : JSNum → JSNum → JSNum
  | fin a, fin b =>
      if b = 0 then (if a = 0 then nan else if 0 < a then inf else ninf)
      else fin (a / b)
  | fin _, inf => fin 0
  | fin _, ninf => fin 0
  | inf, fin b => if 0 ≤ b then inf else ninf
  | ninf, fin b => if 0 ≤ b then ninf else inf
  | inf, inf => nan
  | inf, ninf => nan
  | ninf, inf => nan
  | ninf, ninf => nan
  | nan, _ => nan
  | _, nan => nan

/-- JavaScript `Math.max`, which returns NaN as soon as one argument is NaN. -/
def max : JSNum → JSNum → JSNum
  | fin a, fin b => fin (Max.max a b)
  | fin _, inf => inf
  | inf, fin _ => inf
  | inf, inf => inf
  | fin a, ninf => fin a
  | ninf, fin b => fin b
  | ninf, ninf => ninf
  | inf, ninf => inf
  | ninf, inf => inf
  | nan, _ => nan
  | _, nan => nan

/-- JavaScript `Math.min`, which returns NaN as soon as one argument is NaN. -/
def min : JSNum → JSNum → JSNum
  | fin a, fin b => fin (Min.min a b)
  | fin a, inf => fin a
  | inf, fin b => fin b
  | inf, inf => inf
  | fin _, ninf => ninf
  | ninf, fin _ => ninf
  | ninf, ninf => ninf
  | inf, ninf => ninf
  | ninf, inf => ninf
  | nan, _ => nan
  | _, nan => nan

/-- JavaScript strict `<`; every comparison involving NaN is false. -/
def lt : JSNum → JSNum → Bool
  | fin a, fin b => decide (a < b)
  | fin _, inf => true
  | ninf, fin _ => true
  | ninf, inf => true
  | _, _ => false

/-- JavaScript `<=`; every comparison involving NaN is false. -/
def le : JSNum → JSNum → Bool
  | fin a, fin b => decide (a ≤ b)
  | fin _, inf => true
  | ninf, fin _ => true
  | ninf, inf => true
  | ninf, ninf => true
  | inf, inf => true
  | _, _ => false

/-- JavaScript `Math.sqrt`, with `sqrtFn` standing for the (irrational) real
square root on finite nonnegative arguments. -/
def sqrt (sqrtFn : ℚ → ℚ) : JSNum → JSNum
  | fin q => if q < 0 then nan else fin (sqrtFn q)
  | inf => inf
  | ninf => nan
  | nan => nan

/-- JavaScript `Math.exp`, with `expFn` standing for the (irrational) real
exponential on finite arguments. -/
def exp (expFn : ℚ → ℚ) : JSNum → JSNum
  | fin q => fin (expFn q)
  | inf => inf
  | ninf => fin 0
  | nan => nan

/-- JavaScript `Math.floor`. -/
def floor : JSNum → JSNum
  | fin q => fin (⌊q⌋ : ℤ)
  | inf => inf
  | ninf => ninf
  | nan => nan

end JSNum

/-- Model of `parseFloat(x.toFixed(d))` for a finite `x`: round to `d`
decimal places, ties toward positive infinity (ECMAScript `toFixed` picks
the larger candidate integer). -/
def roundTo (d : ℕ) (x : ℚ) : ℚ := (⌊x * 10 ^ d + 1 / 2⌋ : ℤ) / 10 ^ d

theorem roundTo_mono (d : ℕ) {x y : ℚ} (h : x ≤ y) : roundTo d x ≤ roundTo d y := by
  unfold roundTo
  have hp : (0 : ℚ) < 10 ^ d := by positivity
  rw [div_le_div_iff_of_pos_right hp]
  have : x * 10 ^ d + 1 / 2 ≤ y * 10 ^ d + 1 / 2 := by nlinarith
  exact_mod_cast Int.floor_le_floor this

theorem roundTo_zero (d : ℕ) : roundTo d 0 = 0 := by
  unfold roundTo
  norm_num

/-! ## Embedding of `src/js/stats.js` -/

/-- An entry of a JavaScript array fed to the statistics helpers: either a
valid finite number or an invalid entry (`null`, `undefined` or `NaN`),
which every routine of `stats.js` filters out first. -/
abbrev Obs := Option ℚ

/-- The filter
`arr.filter(val => val !== null && val !== undefined && !isNaN(val))`
shared by every helper of `stats.js`. -/
def filterValid (arr : List Obs) : List ℚ := arr.filterMap id

/-- Core of `mean` from `stats.js` on an already-filtered array.  Filtering
an all-valid array is the identity, so the source's internal call
`mean(filtered)` is `meanQ filtered`. -/
def meanQ (arr : List ℚ) : ℚ :=
  if arr.length = 0 then 0 else arr.sum / arr.length

/-- The function `mean` of `stats.js`. -/
def mean (arr : List Obs) : ℚ := meanQ (filterValid arr)

/-- Core of `standardDeviation` from `stats.js` (sample standard deviation,
Bessel correction) on an already-filtered array; `sqrtFn` stands for
`Math.sqrt`. -/
def standardDeviationQ (sqrtFn : ℚ → ℚ) (arr : List ℚ) : ℚ :=
  if arr.length ≤ 1 then 0
  else
    sqrtFn (((arr.map (fun v => (v - meanQ arr) ^ 2)).sum) / ((arr.length : ℚ) - 1))

/-- The function `standardDeviation` of `stats.js`. -/
def standardDeviation (sqrtFn : ℚ → ℚ) (arr : List Obs) : ℚ :=
  standardDeviationQ sqrtFn (filterValid arr)

/-- Result object of `confidenceInterval95`. -/
structure CIResult where
  mean : ℚ
  lower : ℚ
  upper : ℚ
  se : ℚ
deriving DecidableEq, Repr

/-- The function `confidenceInterval95` of `stats.js`. -/
def confidenceInterval95 (sqrtFn : ℚ → ℚ) (arr : List Obs) : CIResult :=
  let filtered := filterValid arr
  if filtered.length = 0 then ⟨0, 0, 0, 0⟩
  else
    let avg := meanQ filtered
    let sd := standardDeviationQ sqrtFn filtered
    let se := sd / sqrtFn filtered.length
    let margin := 1.96 * se
    ⟨roundTo 2 avg, roundTo 2 (avg - margin), roundTo 2 (avg + margin), roundTo 2 se⟩

/-- The `pValue` field of a `tTest` result is the number `1` on empty input
and one of three bucket strings otherwise; this sum type mirrors that
heterogeneous JavaScript value. -/
inductive PValue where
  | num (q : ℚ)
  | str (s : String)
deriving DecidableEq, Repr

/-- Result object of `tTest`.  The early-return object of the source has no
`df` property, hence the `Option` on `df`; `df` itself is `Math.floor` of a
quotient that is NaN when a group has a single element, hence `JSNum`. -/
structure TTestResult where
  tStatistic : ℚ
  pValue : PValue
  meanDiff : ℚ
  df : Option JSNum
deriving DecidableEq, Repr

/-- The unrounded Welch t statistic computed inside `tTest`
(`meanDiff / pooledSE`, and `0` when `pooledSE` is zero). -/
def tStatVal (sqrtFn : ℚ → ℚ) (arr1 arr2 : List Obs) : ℚ :=
  let f1 := filterValid arr1
  let f2 := filterValid arr2
  let meanDiff := meanQ f1 - meanQ f2
  let sd1 := standardDeviationQ sqrtFn f1
  let sd2 := standardDeviationQ sqrtFn f2
  let pooledSE := sqrtFn (sd1 * sd1 / f1.length + sd2 * sd2 / f2.length)
  if pooledSE = 0 then 0 else meanDiff / pooledSE

/-- The function `tTest` of `stats.js`. -/
def tTest (sqrtFn : ℚ → ℚ) (arr1 arr2 : List Obs) : TTestResult :=
  let f1 := filterValid arr1
  let f2 := filterValid arr2
  if f1.length = 0 ∨ f2.length = 0 then ⟨0, .num 1, 0, none⟩
  else
    let sd1 := standardDeviationQ sqrtFn f1
    let sd2 := standardDeviationQ sqrtFn f2
    let n1 : ℚ := f1.length
    let n2 : ℚ := f2.length
    let meanDiff := meanQ f1 - meanQ f2
    let tStatistic := tStatVal sqrtFn arr1 arr2
    let df := JSNum.floor (JSNum.div (.fin ((sd1 * sd1 / n1 + sd2 * sd2 / n2) ^ 2))
        (JSNum.add (JSNum.div (.fin ((sd1 * sd1 / n1) ^ 2)) (.fin (n1 - 1)))
          (JSNum.div (.fin ((sd2 * sd2 / n2) ^ 2)) (.fin (n2 - 1)))))
    let absT := |tStatistic|
    let pValue : PValue :=
      if absT < 1.96 then .str ">0.05"
      else if absT < 2.58 then .str "<0.05"
      else .str "<0.01"
    ⟨roundTo 3 tStatistic, pValue, roundTo 2 meanDiff, some df⟩

/-! ## Embedding of the Kaplan-Meier / RMST / hazard-ratio routines -/

/-- A survival record of one arm: `time_months` and the event flag
(`event === 1` in the source, modelled as a Bool). -/
structure SurvRecord where
  time_months : ℚ
  event : Bool
deriving DecidableEq, Repr

/-- A point of the Kaplan-Meier output of `calculateKM`.  The survival
probability is always an exact rational (each update divides by a positive
at-risk count), while `lower` and `upper` pass through
`survProb * Math.sqrt(greenwoodVar)` where `greenwoodVar` can become
Infinity, so they are modelled as `JSNum`. -/
structure KMPoint where
  time : ℚ
  survival : ℚ
  lower : JSNum
  upper : JSNum
  atRisk : ℤ
  events : ℕ
deriving DecidableEq, Repr

/-- The comparator sort `[...data].sort((a, b) => a.time_months - b.time_months)`
at the top of `calculateKM`. -/
def sortByTime (data : List SurvRecord) : List SurvRecord :=
  data.insertionSort (fun a b => a.time_months ≤ b.time_months)

/-- The distinct-time list
`[...new Set(sorted.map(d => d.time_months))].sort((a,b) => a-b)` of
`calculateKM`: first occurrences, then sorted ascending. -/
def uniqueTimes (sorted : List SurvRecord) : List ℚ :=
  ((sorted.map (fun d => d.time_months)).dedup).insertionSort (fun a b => a ≤ b)

/-- Count of records with `d.time_months === t && d.event === 1`
(`eventsAtT` in `calculateKM`). -/
def eventsAt (l : List SurvRecord) (t : ℚ) : ℕ :=
  (l.filter (fun d => d.time_months = t ∧ d.event)).length

/-- Count of records with `d.time_months >= t` (`atRisk` in `calculateKM`). -/
def atRiskAt (l : List SurvRecord) (t : ℚ) : ℕ :=
  (l.filter (fun d => t ≤ d.time_months)).length

/-- The main loop of `calculateKM` over the distinct times, carrying the
current survival probability and the cumulative Greenwood variance.  The
Greenwood term `eventsAtT / (atRisk * (atRisk - eventsAtT))` divides by zero
(giving Infinity) when every subject still at risk experiences the event. -/
def kmLoop (sqrtFn : ℚ → ℚ) (sorted : List SurvRecord) :
    List ℚ → ℚ → JSNum → List KMPoint
  | [], _, _ => []
  | t :: rest, survProb, greenwoodVar =>
      let eventsAtT := eventsAt sorted t
      let atRisk := atRiskAt sorted t
      let survProb' :=
        if 0 < eventsAtT ∧ 0 < atRisk then
          survProb * (1 - (eventsAtT : ℚ) / atRisk)
        else survProb
      let greenwoodVar' :=
        if 0 < eventsAtT ∧ 0 < atRisk then
          JSNum.add greenwoodVar
            (JSNum.div (.fin eventsAtT) (.fin ((atRisk : ℚ) * ((atRisk : ℚ) - eventsAtT))))
        else greenwoodVar
      let se := JSNum.mul (.fin survProb') (JSNum.sqrt sqrtFn greenwoodVar')
      let lower := JSNum.max (.fin 0) (JSNum.sub (.fin survProb') (JSNum.mul (.fin 1.96) se))
      let upper := JSNum.min (.fin 1) (JSNum.add (.fin survProb') (JSNum.mul (.fin 1.96) se))
      ⟨t, survProb', lower, upper, (atRisk : ℤ) - eventsAtT, eventsAtT⟩ ::
        kmLoop sqrtFn sorted rest survProb' greenwoodVar'

/-- The function `calculateKM` of the charts module: the initial point
`(0, 1.0, 1.0, 1.0, N, 0)` followed by one point per distinct time. -/
def calculateKM (sqrtFn : ℚ → ℚ) (data : List SurvRecord) : List KMPoint :=
  let sorted := sortByTime data
  ⟨0, 1, .fin 1, .fin 1, (sorted.length : ℤ), 0⟩ ::
    kmLoop sqrtFn sorted (uniqueTimes sorted) 1 (.fin 0)

/-- The loop of `calculateRMST`, carrying `prevTime`, `prevSurvival` and the
accumulated `rmst`.  A `break` (taken when `currentTime >= restrictionTime`)
falls through to the trailing `if (prevTime < restrictionTime)` block with
the not-yet-updated `prevTime`/`prevSurvival`, exactly as in the source. -/
def rmstLoop (restrictionTime : ℚ) :
    List KMPoint → ℚ → ℚ → ℚ → ℚ
  | [], prevTime, prevSurvival, rmst =>
      if prevTime < restrictionTime then
        rmst + (restrictionTime - prevTime) * prevSurvival
      else rmst
  | p :: rest, prevTime, prevSurvival, rmst =>
      let currentTime := Min.min p.time restrictionTime
      let rmst' := rmst + (currentTime - prevTime) * ((prevSurvival + p.survival) / 2)
      if restrictionTime ≤ currentTime then
        if prevTime < restrictionTime then
          rmst' + (restrictionTime - prevTime) * prevSurvival
        else rmst'
      else rmstLoop restrictionTime rest currentTime p.survival rmst'

/-- The function `calculateRMST` of the charts module. -/
def calculateRMST (kmData : List KMPoint) (restrictionTime : ℚ) : ℚ :=
  rmstLoop restrictionTime kmData 0 1 0

/-- Result object of `calculateHR`.  All four derived fields can be
Infinity or NaN in the source, hence `JSNum`. -/
structure HRResult where
  hr : JSNum
  ciLower : JSNum
  ciUpper : JSNum
  nA : ℕ
  nB : ℕ
deriving DecidableEq, Repr

/-- The function `calculateHR` of the charts module: raw event-rate ratio
with a log-normal confidence interval, with no guard for zero events. -/
def calculateHR (sqrtFn expFn : ℚ → ℚ) (armA armB : List SurvRecord) : HRResult :=
  let eventsA := (armA.filter (fun d => d.event)).length
  let eventsB := (armB.filter (fun d => d.event)).length
  let totalA := armA.length
  let totalB := armB.length
  let rateA := JSNum.div (.fin eventsA) (.fin totalA)
  let rateB := JSNum.div (.fin eventsB) (.fin totalB)
  let hr := JSNum.div rateA rateB
  let se := JSNum.sqrt sqrtFn
    (JSNum.add (JSNum.div (.fin 1) (.fin eventsA)) (JSNum.div (.fin 1) (.fin eventsB)))
  let ciLower := JSNum.mul hr (JSNum.exp expFn (JSNum.mul (.fin (-1.96)) se))
  let ciUpper := JSNum.mul hr (JSNum.exp expFn (JSNum.mul (.fin 1.96) se))
  ⟨hr, ciLower, ciUpper, totalA, totalB⟩

/-! ## Embedding of the ROC / precision-recall / gauge routines -/

/-- A classified observation: `disease_status === 'Positive'` is modelled by
`label` and `predicted_probability` by `score`. -/
structure ClassRecord where
  label : Bool
  score : ℚ
deriving DecidableEq, Repr

/-- The comparator sort
`[...data].sort((a, b) => b.predicted_probability - a.predicted_probability)`
shared by `createROCCurve`, `createPRCurve` and `createDiagnosticGauges`:
descending score, stable. -/
def sortByScoreDesc (data : List ClassRecord) : List ClassRecord :=
  data.insertionSort (fun a b => b.score ≤ a.score)

/-- Count of records with `disease_status === 'Positive'`. -/
def countPos (l : List ClassRecord) : ℕ := (l.filter (fun r => r.label)).length

/-- Count of records with `disease_status === 'Negative'`. -/
def countNeg (l : List ClassRecord) : ℕ := (l.filter (fun r => !r.label)).length

/-- A point of the ROC sweep of `createROCCurve`. -/
structure ROCPoint where
  fpr : ℚ
  tpr : ℚ
  threshold : ℚ
deriving DecidableEq, Repr

/-- Youden's J statistic `tpr - fpr` of an ROC point. -/
def youdenJ (p : ROCPoint) : ℚ := p.tpr - p.fpr

/-- The cumulative sweep of `createROCCurve`: one `(fpr, tpr)` point per
patient of the descending-score order, with running true/false positive
counts `tp`/`fp` divided by the totals `P`/`N`. -/
def rocSweep (P N : ℚ) : List ClassRecord → ℕ → ℕ → List ROCPoint
  | [], _, _ => []
  | r :: rest, tp, fp =>
      let tp' := if r.label then tp + 1 else tp
      let fp' := if r.label then fp else fp + 1
      ⟨(fp' : ℚ) / N, (tp' : ℚ) / P, r.score⟩ :: rocSweep P N rest tp' fp'

/-- The point list of `createROCCurve`: the pushed `(0, 0)` start followed
by the sweep. -/
def rocPoints (data : List ClassRecord) : List ROCPoint :=
  let sorted := sortByScoreDesc data
  ⟨0, 0, 1⟩ :: rocSweep (countPos sorted) (countNeg sorted) sorted 0 0

/-- The trapezoidal AUC loop of `createROCCurve`
(`auc += width * avgHeight` over consecutive point pairs), carrying the
previous point. -/
def trapSum : List ROCPoint → ROCPoint → ℚ
  | [], _ => 0
  | p :: rest, prev => (p.fpr - prev.fpr) * ((p.tpr + prev.tpr) / 2) + trapSum rest p

/-- The AUC of `createROCCurve`. -/
def rocAUC (data : List ClassRecord) : ℚ :=
  let sorted := sortByScoreDesc data
  trapSum (rocSweep (countPos sorted) (countNeg sorted) sorted 0 0) ⟨0, 0, 1⟩

/-- The optimal-threshold loop of `createROCCurve`: keep the first point
whose Youden J strictly exceeds the running maximum (initially `-1`, with
`rocPoints[0]` as the initial candidate). -/
def optLoop : List ROCPoint → ℚ → ROCPoint → ℚ × ROCPoint
  | [], maxJ, opt => (maxJ, opt)
  | p :: rest, maxJ, opt =>
      if maxJ < youdenJ p then optLoop rest (youdenJ p) p else optLoop rest maxJ opt

/-- The `(maxJ, optimalPoint)` pair of `createROCCurve`. -/
def rocOptimal (data : List ClassRecord) : ℚ × ROCPoint :=
  optLoop (rocPoints data) (-1) ⟨0, 0, 1⟩

/-- The AUC accumulation of `createDiagnosticGauges`
(`auc += tpr * (fpr - prevFpr)`, a rectangle rule), carrying the running
counts and `prevFpr`. -/
def rectLoop (P N : ℚ) : List ClassRecord → ℕ → ℕ → ℚ → ℚ
  | [], _, _, _ => 0
  | r :: rest, tp, fp, prevFpr =>
      let tp' := if r.label then tp + 1 else tp
      let fp' := if r.label then fp else fp + 1
      ((tp' : ℚ) / P) * ((fp' : ℚ) / N - prevFpr) +
        rectLoop P N rest tp' fp' ((fp' : ℚ) / N)

/-- The AUC computed inside `createDiagnosticGauges` (its threshold-metric
gauges and rendering are not referenced by any claim and are omitted). -/
def gaugesAUC (data : List ClassRecord) : ℚ :=
  rectLoop (countPos data) (countNeg data) (sortByScoreDesc data) 0 0 0

/-- The Average-Precision loop of `createPRCurve`: the recall
`tp / totalPos` is NaN when there are no positives (a `0 / 0` in the
source), so it is computed in `JSNum`; the accumulation step is guarded by
`recall > prevRecall`, a comparison that is false for NaN. -/
def apLoop (P : ℕ) : List ClassRecord → ℕ → ℕ → JSNum → JSNum → JSNum
  | [], _, _, _, ap => ap
  | r :: rest, tp, fp, prevRecall, ap =>
      let tp' := if r.label then tp + 1 else tp
      let fp' := if r.label then fp else fp + 1
      let precision := JSNum.div (.fin tp') (.fin ((tp' : ℚ) + (fp' : ℚ)))
      let recl := JSNum.div (.fin tp') (.fin (P : ℚ))
      if JSNum.lt prevRecall recl then
        apLoop P rest tp' fp' recl
          (JSNum.add ap (JSNum.mul precision (JSNum.sub recl prevRecall)))
      else apLoop P rest tp' fp' prevRecall ap

/-- The Average Precision of `createPRCurve`. -/
def prAP (data : List ClassRecord) : JSNum :=
  let sorted := sortByScoreDesc data
  apLoop (countPos sorted) sorted 0 0 (.fin 0) (.fin 0)

/-! ## Helper lemmas -/

theorem sortByTime_perm (data : List SurvRecord) : List.Perm (sortByTime data) data :=
  List.perm_insertionSort _ _

theorem eventsAt_sortByTime (data : List SurvRecord) (t : ℚ) :
    eventsAt (sortByTime data) t = eventsAt data t :=
  ((sortByTime_perm data).filter _).length_eq

theorem atRiskAt_sortByTime (data : List SurvRecord) (t : ℚ) :
    atRiskAt (sortByTime data) t = atRiskAt data t :=
  ((sortByTime_perm data).filter _).length_eq

theorem kmLoop_map_counts (sqrtFn : ℚ → ℚ) (sorted : List SurvRecord) :
    ∀ (times : List ℚ) (survProb : ℚ) (gv : JSNum),
      (kmLoop sqrtFn sorted times survProb gv).map (fun p => (p.time, p.atRisk, p.events)) =
        times.map (fun t =>
          (t, (atRiskAt sorted t : ℤ) - eventsAt sorted t, eventsAt sorted t))
  | [], _, _ => rfl
  | t :: rest, survProb, gv => by
      simp only [kmLoop, List.map_cons]
      exact congrArg _ (kmLoop_map_counts sqrtFn sorted rest _ _)

theorem mem_uniqueTimes {sorted : List SurvRecord} {t : ℚ} :
    t ∈ uniqueTimes sorted ↔ ∃ r ∈ sorted, r.time_months = t := by
  unfold uniqueTimes
  rw [List.mem_insertionSort, List.mem_dedup, List.mem_map]

/-! ## Claims -/

/-- Claim C1 (code bug): the KM confidence band is not always well formed.
At the input `[{time_months: 5, event: 1}]` the Greenwood update divides by
`atRisk * (atRisk - eventsAtT) = 0`, so the cumulative variance becomes
Infinity and the standard error `0 * sqrt(Infinity)` becomes NaN; both CI
bounds of the final point are NaN, and a NaN bound satisfies neither
`lower ≤ survival` nor `survival ≤ upper` nor membership in `[0, 1]` (every
JavaScript comparison with NaN is false), contradicting the claimed
invariant and the source's own clamp of the CI to `[0, 1]`. -/
theorem C1_km_ci_nan :
    calculateKM (fun q => q) [⟨5, true⟩] =
      [⟨0, 1, .fin 1, .fin 1, 1, 0⟩, ⟨5, 0, .nan, .nan, 0, 1⟩] ∧
    JSNum.le JSNum.nan (.fin 0) = false ∧ JSNum.le (.fin 0) JSNum.nan = false := by
  refine ⟨by with_unfolding_all rfl, rfl, rfl⟩

/-- Claim C2 (code bug): `calculateHR` has no zero-event guard.  With zero
events in arm A (and one subject each) the log-normal standard error is
`sqrt(1/0 + 1/1) = Infinity` and `ciUpper = 0 * exp(Infinity)` is NaN; with
zero events in arm B the rate ratio itself is `Infinity`.  The degenerate
case is therefore not signalled: the result silently contains NaN/Infinity. -/
theorem C2_hr_inf_nan :
    (calculateHR (fun q => q) (fun q => q) [⟨1, false⟩] [⟨1, true⟩]).ciUpper = JSNum.nan ∧
    (calculateHR (fun q => q) (fun q => q) [⟨1, true⟩] [⟨1, false⟩]).hr = JSNum.inf := by
  refine ⟨by with_unfolding_all rfl, by with_unfolding_all rfl⟩

/-- Claim C6 (code bug): `calculateRMST(curve, 0) = 0` holds, but RMST is
not monotone in the restriction time.  When the loop leaves via `break`
(some KM time is `≥ restrictionTime`), the trailing
`if (prevTime < restrictionTime)` block still fires with the not-yet-updated
`prevTime`, adding the rectangle `(restrictionTime - prevTime) * prevSurvival`
on top of the trapezoid already accumulated for the same interval.  On the
KM curve of `[{time_months: 10, event: 1}]` this gives RMST `7.5` at
restriction time `5` but RMST `5` at restriction time `11`. -/
theorem C6_rmst_not_monotone :
    calculateRMST (calculateKM (fun q => q) [⟨10, true⟩]) 0 = 0 ∧
    calculateRMST (calculateKM (fun q => q) [⟨10, true⟩]) 5 = 15 / 2 ∧
    calculateRMST (calculateKM (fun q => q) [⟨10, true⟩]) 11 = 5 ∧
    calculateRMST (calculateKM (fun q => q) [⟨10, true⟩]) 11 <
      calculateRMST (calculateKM (fun q => q) [⟨10, true⟩]) 5 := by
  have h5 : calculateRMST (calculateKM (fun q => q) [⟨10, true⟩]) 5 = 15 / 2 := by
    with_unfolding_all rfl
  have h11 : calculateRMST (calculateKM (fun q => q) [⟨10, true⟩]) 11 = 5 := by
    with_unfolding_all rfl
  refine ⟨by with_unfolding_all rfl, h5, h11, ?_⟩
  rw [h5, h11]; norm_num

/-- Claim C4, counterexample: the claim as stated is false.  At the input
`[{time_months: 5, event: 1}]` the output point at time 5 has `atRisk` field
`0`, while the count of records with time `≥ 5` is `1`: the source stores
`atRisk - eventsAtT` (the at-risk count after the events at `t`) in the
output, not the at-risk count itself. -/
theorem C4_atRisk_counterexample :
    (calculateKM (fun q => q) [⟨5, true⟩]).map (fun p => (p.time, p.atRisk)) =
      [(0, 1), (5, 0)] ∧
    atRiskAt [⟨5, true⟩] 5 = 1 ∧ (0 : ℤ) ≠ 1 := by
  refine ⟨by with_unfolding_all rfl, by with_unfolding_all rfl, by norm_num⟩

/-- Claim C4, amended: for every survival-record collection, the tail of the
`calculateKM` output carries one point per distinct data time (the distinct
times being exactly the times occurring in the data), and at each such time
`t` the point's `events` field equals the count of records with time `= t`
and the event flag set, while its `atRisk` field equals the count of records
with time `≥ t` MINUS those events (the at-risk count after the events at
`t`, as the source comments). -/
theorem C4_km_counts (sqrtFn : ℚ → ℚ) (data : List SurvRecord) :
    ((calculateKM sqrtFn data).tail).map (fun p => (p.time, p.atRisk, p.events)) =
      (uniqueTimes (sortByTime data)).map (fun t =>
        (t, (atRiskAt data t : ℤ) - eventsAt data t, eventsAt data t)) ∧
    ∀ t : ℚ, t ∈ uniqueTimes (sortByTime data) ↔ ∃ r ∈ data, r.time_months = t := by
  constructor
  · show (kmLoop sqrtFn (sortByTime data) (uniqueTimes (sortByTime data)) 1 (.fin 0)).map _ = _
    rw [kmLoop_map_counts]
    exact List.map_congr_left fun t _ => by
      rw [eventsAt_sortByTime, atRiskAt_sortByTime]
  · intro t
    rw [mem_uniqueTimes]
    constructor
    · rintro ⟨r, hr, rfl⟩; exact ⟨r, (sortByTime_perm data).mem_iff.mp hr, rfl⟩
    · rintro ⟨r, hr, rfl⟩; exact ⟨r, (sortByTime_perm data).mem_iff.mpr hr, rfl⟩

theorem standardDeviationQ_nonneg (sqrtFn : ℚ → ℚ) (hnn : ∀ q : ℚ, 0 ≤ q → 0 ≤ sqrtFn q)
    (l : List ℚ) : 0 ≤ standardDeviationQ sqrtFn l := by
  unfold standardDeviationQ
  split
  · exact le_refl 0
  · rename_i hlen
    apply hnn
    apply div_nonneg
    · apply List.sum_nonneg
      intro x hx
      obtain ⟨v, _, rfl⟩ := List.mem_map.mp hx
      positivity
    · have : 2 ≤ l.length := by omega
      have : (2 : ℚ) ≤ (l.length : ℚ) := by exact_mod_cast this
      linarith

/-- Claim C5 (confirmed): for a sample that is non-empty after filtering,
`confidenceInterval95` satisfies `lower ≤ mean ≤ upper` even after the
two-decimal rounding of each field (rounding is monotone and the margin
`1.96 * se` is nonnegative); for an input that is empty after filtering it
returns exactly `{mean: 0, lower: 0, upper: 0, se: 0}`. -/
theorem C5_ci95_order (sqrtFn : ℚ → ℚ) (hnn : ∀ q : ℚ, 0 ≤ q → 0 ≤ sqrtFn q)
    (arr : List Obs) :
    (filterValid arr ≠ [] →
      (confidenceInterval95 sqrtFn arr).lower ≤ (confidenceInterval95 sqrtFn arr).mean ∧
      (confidenceInterval95 sqrtFn arr).mean ≤ (confidenceInterval95 sqrtFn arr).upper) ∧
    (filterValid arr = [] → confidenceInterval95 sqrtFn arr = ⟨0, 0, 0, 0⟩) := by
  constructor
  · intro hne
    have hlen : ¬((filterValid arr).length = 0) := by
      simpa [List.length_eq_zero] using hne
    have hsd : 0 ≤ standardDeviationQ sqrtFn (filterValid arr) :=
      standardDeviationQ_nonneg sqrtFn hnn _
    have hse : 0 ≤ standardDeviationQ sqrtFn (filterValid arr) /
        sqrtFn ((filterValid arr).length) :=
      div_nonneg hsd (hnn _ (by positivity))
    have hm : 0 ≤ (1.96 : ℚ) * (standardDeviationQ sqrtFn (filterValid arr) /
        sqrtFn ((filterValid arr).length)) := by
      apply mul_nonneg _ hse
      norm_num
    simp only [confidenceInterval95, hlen, if_false]
    exact ⟨roundTo_mono 2 (by linarith), roundTo_mono 2 (by linarith)⟩
  · intro he
    simp only [confidenceInterval95, he, List.length_nil, if_pos]

/-- Witness for C5 at the concrete sample `[1, 3]` with the identity
standing in for the square root. -/
theorem C5_ci95_order_witness :
    filterValid [some (1 : ℚ), some 3] ≠ [] ∧
    ((confidenceInterval95 (fun q => q) [some 1, some 3]).lower ≤
      (confidenceInterval95 (fun q => q) [some 1, some 3]).mean ∧
     (confidenceInterval95 (fun q => q) [some 1, some 3]).mean ≤
      (confidenceInterval95 (fun q => q) [some 1, some 3]).upper) :=
  ⟨by decide,
   (C5_ci95_order (fun q => q) (fun q h => h) [some 1, some 3]).1 (by decide)⟩

theorem tStatVal_self (sqrtFn : ℚ → ℚ) (arr : List Obs) :
    tStatVal sqrtFn arr arr = 0 := by
  simp only [tStatVal]
  split
  · rfl
  · simp

/-- Claim C3 (confirmed): for samples that are both non-empty after
filtering, the `pValue` of `tTest` is `">0.05"` exactly when the (unrounded)
Welch t statistic satisfies `|t| < 1.96`, `"<0.05"` exactly when
`1.96 ≤ |t| < 2.58`, and `"<0.01"` exactly when `|t| ≥ 2.58`; for identical
non-empty samples the returned `tStatistic` is `0` and the `pValue` is
`">0.05"`. -/
theorem C3_ttest_buckets (sqrtFn : ℚ → ℚ) (arr1 arr2 : List Obs)
    (h1 : filterValid arr1 ≠ []) (h2 : filterValid arr2 ≠ []) :
    ((tTest sqrtFn arr1 arr2).pValue = .str ">0.05" ↔
      |tStatVal sqrtFn arr1 arr2| < 1.96) ∧
    ((tTest sqrtFn arr1 arr2).pValue = .str "<0.05" ↔
      1.96 ≤ |tStatVal sqrtFn arr1 arr2| ∧ |tStatVal sqrtFn arr1 arr2| < 2.58) ∧
    ((tTest sqrtFn arr1 arr2).pValue = .str "<0.01" ↔
      2.58 ≤ |tStatVal sqrtFn arr1 arr2|) ∧
    (arr1 = arr2 → (tTest sqrtFn arr1 arr2).tStatistic = 0 ∧
      (tTest sqrtFn arr1 arr2).pValue = .str ">0.05") := by
  have hcond : ¬((filterValid arr1).length = 0 ∨ (filterValid arr2).length = 0) := by
    simp [List.length_eq_zero, h1, h2]
  have hne1 : (PValue.str ">0.05") ≠ (PValue.str "<0.05") := by decide
  have hne2 : (PValue.str ">0.05") ≠ (PValue.str "<0.01") := by decide
  have hne3 : (PValue.str "<0.05") ≠ (PValue.str "<0.01") := by decide
  simp only [tTest, hcond, if_false]
  split_ifs with hb1 hb2
  · refine ⟨⟨fun _ => hb1, fun _ => rfl⟩,
      ⟨fun hh => absurd hh hne1, fun hh => absurd hb1 (not_lt.mpr hh.1)⟩,
      ⟨fun hh => absurd hh hne2, fun hh => absurd hb1 (not_lt.mpr (by linarith [hh]))⟩,
      fun he => ⟨by rw [he, tStatVal_self, roundTo_zero], rfl⟩⟩
  · refine ⟨⟨fun hh => absurd hh.symm hne1, fun hh => absurd hh hb1⟩,
      ⟨fun _ => ⟨not_lt.mp hb1, hb2⟩, fun _ => rfl⟩,
      ⟨fun hh => absurd hh hne3, fun hh => absurd hb2 (not_lt.mpr hh)⟩,
      fun he => ?_⟩
    exfalso
    rw [he, tStatVal_self] at hb1
    norm_num at hb1
  · refine ⟨⟨fun hh => absurd hh.symm hne2, fun hh => absurd hh hb1⟩,
      ⟨fun hh => absurd hh.symm hne3, fun hh => absurd hh.2 hb2⟩,
      ⟨fun _ => not_lt.mp hb2, fun _ => rfl⟩,
      fun he => ?_⟩
    exfalso
    rw [he, tStatVal_self] at hb1
    norm_num at hb1

/-- Witness for C3 at the concrete identical samples `[1]` and `[1]`. -/
theorem C3_ttest_buckets_witness :
    filterValid [some (1 : ℚ)] ≠ [] ∧
    ((tTest (fun q => q) [some 1] [some 1]).tStatistic = 0 ∧
      (tTest (fun q => q) [some 1] [some 1]).pValue = .str ">0.05") :=
  ⟨by decide,
   (C3_ttest_buckets (fun q => q) [some 1] [some 1] (by decide) (by decide)).2.2.2 rfl⟩

/-- Claim C9 (confirmed): when either input of `tTest` is empty after
filtering, the result is exactly `{tStatistic: 0, pValue: 1, meanDiff: 0}`
(no `df` property), whose `pValue` is the number `1`; for two inputs that
are non-empty after filtering, the `pValue` is always one of the three
bucket strings. -/
theorem C9_ttest_empty (sqrtFn : ℚ → ℚ) (arr1 arr2 : List Obs) :
    (filterValid arr1 = [] ∨ filterValid arr2 = [] →
      tTest sqrtFn arr1 arr2 = ⟨0, .num 1, 0, none⟩) ∧
    (filterValid arr1 ≠ [] → filterValid arr2 ≠ [] →
      ((tTest sqrtFn arr1 arr2).pValue = .str ">0.05" ∨
       (tTest sqrtFn arr1 arr2).pValue = .str "<0.05" ∨
       (tTest sqrtFn arr1 arr2).pValue = .str "<0.01")) := by
  constructor
  · intro he
    have hcond : ((filterValid arr1).length = 0 ∨ (filterValid arr2).length = 0) := by
      rcases he with he | he
      · exact Or.inl (by simp [he])
      · exact Or.inr (by simp [he])
    simp only [tTest, hcond, if_true]
  · intro h1 h2
    have hcond : ¬((filterValid arr1).length = 0 ∨ (filterValid arr2).length = 0) := by
      simp [List.length_eq_zero, h1, h2]
    simp only [tTest, hcond, if_false]
    split_ifs
    · exact Or.inl rfl
    · exact Or.inr (Or.inl rfl)
    · exact Or.inr (Or.inr rfl)

/-- Witness for C9 at the concrete inputs `[null]` and `[1]`. -/
theorem C9_ttest_empty_witness :
    (filterValid ([none] : List Obs) = [] ∨ filterValid [some (1 : ℚ)] = []) ∧
    tTest (fun q => q) [none] [some 1] = ⟨0, .num 1, 0, none⟩ :=
  ⟨Or.inl (by decide),
   (C9_ttest_empty (fun q => q) [none] [some 1]).1 (Or.inl (by decide))⟩

/-! ## Helper lemmas for the classification routines -/

theorem JSNum.add_fin (a b : ℚ) : JSNum.add (.fin a) (.fin b) = .fin (a + b) := rfl

theorem JSNum.sub_fin (a b : ℚ) : JSNum.sub (.fin a) (.fin b) = .fin (a - b) := by
  simp [JSNum.sub, JSNum.add, JSNum.neg, sub_eq_add_neg]

theorem JSNum.mul_fin (a b : ℚ) : JSNum.mul (.fin a) (.fin b) = .fin (a * b) := rfl

theorem JSNum.div_fin {b : ℚ} (a : ℚ) (h : b ≠ 0) :
    JSNum.div (.fin a) (.fin b) = .fin (a / b) := by
  simp [JSNum.div, h]

theorem JSNum.lt_fin (a b : ℚ) : JSNum.lt (.fin a) (.fin b) = decide (a < b) := rfl

theorem sortByScoreDesc_perm (data : List ClassRecord) :
    List.Perm (sortByScoreDesc data) data :=
  List.perm_insertionSort _ _

theorem countPos_sortByScoreDesc (data : List ClassRecord) :
    countPos (sortByScoreDesc data) = countPos data :=
  ((sortByScoreDesc_perm data).filter _).length_eq

theorem countNeg_sortByScoreDesc (data : List ClassRecord) :
    countNeg (sortByScoreDesc data) = countNeg data :=
  ((sortByScoreDesc_perm data).filter _).length_eq

theorem trapSum_eq_rectLoop (P N : ℚ) :
    ∀ (l : List ClassRecord) (tp fp : ℕ) (s : ℚ),
      trapSum (rocSweep P N l tp fp) ⟨(fp : ℚ) / N, (tp : ℚ) / P, s⟩ =
        rectLoop P N l tp fp ((fp : ℚ) / N)
  | [], _, _, _ => rfl
  | r :: rest, tp, fp, s => by
      simp only [rocSweep, rectLoop, trapSum]
      by_cases hb : r.label
      · simp only [hb, if_true]
        rw [trapSum_eq_rectLoop P N rest (tp + 1) fp r.score]
        push_cast
        ring
      · simp only [hb, Bool.false_eq_true, if_false]
        rw [trapSum_eq_rectLoop P N rest tp (fp + 1) r.score]
        push_cast
        ring

/-- Claim C10 (confirmed): for a dataset with at least one positive, at
least one negative and pairwise-distinct scores, the trapezoidal AUC of
`createROCCurve` equals the rectangle-rule AUC of `createDiagnosticGauges`.
(Both sweeps process one patient per step, and a step moves only one of the
two coordinates, so each trapezoid degenerates to the matching rectangle;
the two functions also sort with the same comparator.) -/
theorem C10_auc_agree (data : List ClassRecord) (hp : 0 < countPos data)
    (hn : 0 < countNeg data)
    (hd : data.Pairwise (fun a b => a.score ≠ b.score)) :
    rocAUC data = gaugesAUC data := by
  simp only [rocAUC, gaugesAUC]
  rw [countPos_sortByScoreDesc, countNeg_sortByScoreDesc]
  have h := trapSum_eq_rectLoop (countPos data) (countNeg data) (sortByScoreDesc data) 0 0 1
  simpa using h

/-- Witness for C10 at the concrete two-patient dataset with scores 1, 0. -/
theorem C10_auc_agree_witness :
    (0 < countPos [⟨true, 1⟩, ⟨false, 0⟩] ∧ 0 < countNeg [⟨true, 1⟩, ⟨false, 0⟩] ∧
      List.Pairwise (fun a b => a.score ≠ b.score)
        [ClassRecord.mk true 1, ClassRecord.mk false 0]) ∧
    rocAUC [⟨true, 1⟩, ⟨false, 0⟩] = gaugesAUC [⟨true, 1⟩, ⟨false, 0⟩] :=
  ⟨⟨by decide, by decide, by decide⟩,
   C10_auc_agree [⟨true, 1⟩, ⟨false, 0⟩] (by decide) (by decide) (by decide)⟩

theorem rectLoop_bounds (P N : ℚ) (hP : 0 < P) (hN : 0 < N) :
    ∀ (l : List ClassRecord) (tp fp : ℕ),
      (tp : ℚ) + ((l.filter (fun r => r.label)).length : ℚ) ≤ P →
      0 ≤ rectLoop P N l tp fp ((fp : ℚ) / N) ∧
      rectLoop P N l tp fp ((fp : ℚ) / N) ≤ ((l.filter (fun r => !r.label)).length : ℚ) / N
  | [], tp, fp, _ => by
      simp [rectLoop]
  | r :: rest, tp, fp, hbound => by
      by_cases hb : r.label = true
      · have hcT : ((r :: rest).filter (fun r => r.label)).length =
            (rest.filter (fun r => r.label)).length + 1 := by
          simp [List.filter_cons, hb]
        have hcF : (r :: rest).filter (fun r => !r.label) = rest.filter (fun r => !r.label) := by
          simp [List.filter_cons, hb]
        have hcTq : (((r :: rest).filter (fun r => r.label)).length : ℚ) =
            ((rest.filter (fun r => r.label)).length : ℚ) + 1 := by exact_mod_cast hcT
        have hrec := rectLoop_bounds P N hP hN rest (tp + 1) fp (by push_cast; linarith)
        rw [hcF]
        simp only [rectLoop, hb, if_true]
        have hterm : ((tp + 1 : ℕ) : ℚ) / P * ((fp : ℚ) / N - (fp : ℚ) / N) = 0 := by ring
        rw [hterm, zero_add]
        exact hrec
      · have hb2 : r.label = false := by
          cases h : r.label
          · rfl
          · exact absurd h hb
        have hcT : (r :: rest).filter (fun r => r.label) = rest.filter (fun r => r.label) := by
          simp [List.filter_cons, hb2]
        have hcF : ((r :: rest).filter (fun r => !r.label)).length =
            (rest.filter (fun r => !r.label)).length + 1 := by
          simp [List.filter_cons, hb2]
        rw [hcT] at hbound
        have hrec := rectLoop_bounds P N hP hN rest tp (fp + 1) hbound
        simp only [rectLoop, hb2, Bool.false_eq_true, if_false]
        have htp : (tp : ℚ) ≤ P := by
          have h0 : (0 : ℚ) ≤ ((rest.filter (fun r => r.label)).length : ℚ) := by positivity
          linarith
        have htpr1 : (tp : ℚ) / P ≤ 1 := by
          rw [div_le_one hP]; exact htp
        have hstep : ((fp + 1 : ℕ) : ℚ) / N - (fp : ℚ) / N = 1 / N := by
          push_cast
          rw [div_sub_div_same]
          ring_nf
        have hterm0 : 0 ≤ (tp : ℚ) / P * (((fp + 1 : ℕ) : ℚ) / N - (fp : ℚ) / N) := by
          rw [hstep]; positivity
        have hterm1 : (tp : ℚ) / P * (((fp + 1 : ℕ) : ℚ) / N - (fp : ℚ) / N) ≤ 1 / N := by
          rw [hstep]
          calc (tp : ℚ) / P * (1 / N) ≤ 1 * (1 / N) :=
                mul_le_mul_of_nonneg_right htpr1 (by positivity)
            _ = 1 / N := one_mul _
        constructor
        · linarith [hrec.1]
        · have hcFq : (((r :: rest).filter (fun r => !r.label)).length : ℚ) =
              ((rest.filter (fun r => !r.label)).length : ℚ) + 1 := by exact_mod_cast hcF
          have hsplit : (((rest.filter (fun r => !r.label)).length : ℚ) + 1) / N =
              ((rest.filter (fun r => !r.label)).length : ℚ) / N + 1 / N := by
            rw [div_add_div_same]
          rw [hcFq, hsplit]
          linarith [hrec.2]

theorem optLoop_spec :
    ∀ (l : List ROCPoint) (m : ℚ) (o : ROCPoint),
      m ≤ (optLoop l m o).1 ∧
      (∀ p ∈ l, youdenJ p ≤ (optLoop l m o).1) ∧
      (((optLoop l m o).1 = m ∧ (optLoop l m o).2 = o) ∨
        (m < (optLoop l m o).1 ∧
          l.find? (fun p => decide ((optLoop l m o).1 ≤ youdenJ p)) =
            some (optLoop l m o).2 ∧
          youdenJ (optLoop l m o).2 = (optLoop l m o).1))
  | [], m, o => by
      simp [optLoop]
  | p :: rest, m, o => by
      simp only [optLoop]
      by_cases h : m < youdenJ p
      · simp only [h, if_true]
        have IH := optLoop_spec rest (youdenJ p) p
        refine ⟨le_of_lt (lt_of_lt_of_le h IH.1), ?_, ?_⟩
        · intro q hq
          rcases List.mem_cons.mp hq with rfl | hq'
          · exact IH.1
          · exact IH.2.1 q hq'
        · right
          rcases IH.2.2 with ⟨hM, hO⟩ | ⟨hlt, hfind, hJO⟩
          · refine ⟨by rw [hM]; exact h, ?_, by rw [hO, hM]⟩
            rw [List.find?_cons_of_pos]
            · rw [hO]
            · simp [hM]
          · refine ⟨lt_trans h hlt, ?_, hJO⟩
            rw [List.find?_cons_of_neg]
            · exact hfind
            · simpa using not_le.mpr hlt
      · simp only [h, if_false]
        have IH := optLoop_spec rest m o
        refine ⟨IH.1, ?_, ?_⟩
        · intro q hq
          rcases List.mem_cons.mp hq with rfl | hq'
          · exact le_trans (not_lt.mp h) IH.1
          · exact IH.2.1 q hq'
        · rcases IH.2.2 with hL | ⟨hlt, hfind, hJO⟩
          · exact Or.inl hL
          · refine Or.inr ⟨hlt, ?_, hJO⟩
            rw [List.find?_cons_of_neg]
            · exact hfind
            · have hlt2 : youdenJ p < (optLoop rest m o).1 :=
                lt_of_le_of_lt (not_lt.mp h) hlt
              simpa using not_le.mpr hlt2

theorem filter_replicate_pos {α : Type} (p : α → Bool) (a : α) (h : p a = true) :
    ∀ n : ℕ, (List.replicate n a).filter p = List.replicate n a
  | 0 => rfl
  | n + 1 => by
      simp only [List.replicate_succ, List.filter_cons, h, if_true]
      rw [filter_replicate_pos p a h n]

theorem filter_replicate_neg {α : Type} (p : α → Bool) (a : α) (h : p a = false) :
    ∀ n : ℕ, (List.replicate n a).filter p = []
  | 0 => rfl
  | n + 1 => by
      simp only [List.replicate_succ, List.filter_cons, h]
      exact filter_replicate_neg p a h n

theorem countPos_blocks (p n : ℕ) :
    countPos (List.replicate p ⟨true, 1⟩ ++ List.replicate n ⟨false, 0⟩) = p := by
  unfold countPos
  rw [List.filter_append, filter_replicate_pos _ _ rfl, filter_replicate_neg _ _ rfl]
  simp

theorem countNeg_blocks (p n : ℕ) :
    countNeg (List.replicate p ⟨true, 1⟩ ++ List.replicate n ⟨false, 0⟩) = n := by
  unfold countNeg
  rw [List.filter_append, filter_replicate_neg _ _ rfl, filter_replicate_pos _ _ rfl]
  simp

theorem orderedInsert_pos_perfect (l : List ClassRecord) (hle : ∀ r ∈ l, r.score ≤ 1) :
    List.orderedInsert (fun a b => b.score ≤ a.score) ⟨true, 1⟩ l = ⟨true, 1⟩ :: l := by
  cases l with
  | nil => rfl
  | cons b t =>
      have hb : b.score ≤ (1 : ℚ) := hle b (List.mem_cons_self b t)
      simp [List.orderedInsert, hb]

theorem orderedInsert_neg_perfect :
    ∀ (p n : ℕ),
      List.orderedInsert (fun a b => b.score ≤ a.score) (⟨false, 0⟩ : ClassRecord)
        (List.replicate p (⟨true, 1⟩ : ClassRecord) ++ List.replicate n (⟨false, 0⟩ : ClassRecord)) =
      List.replicate p (⟨true, 1⟩ : ClassRecord) ++ List.replicate (n + 1) (⟨false, 0⟩ : ClassRecord)
  | 0, 0 => rfl
  | 0, n + 1 => by
      simp only [List.replicate_succ, List.replicate_zero, List.nil_append, List.orderedInsert]
      rw [if_pos (le_refl (0 : ℚ))]
  | p + 1, n => by
      have hins := orderedInsert_neg_perfect p n
      simp only [List.replicate_succ, List.cons_append, List.orderedInsert]
      rw [if_neg (by norm_num : ¬((1 : ℚ) ≤ 0))]
      exact congrArg (List.cons _) hins

theorem sortByScoreDesc_perfect :
    ∀ (data : List ClassRecord),
      (∀ r ∈ data, r = ⟨true, 1⟩ ∨ r = ⟨false, 0⟩) →
      sortByScoreDesc data =
        List.replicate (countPos data) ⟨true, 1⟩ ++
          List.replicate (countNeg data) ⟨false, 0⟩
  | [], _ => rfl
  | r :: rest, hperf => by
      have hrest : ∀ q ∈ rest, q = ⟨true, 1⟩ ∨ q = ⟨false, 0⟩ :=
        fun q hq => hperf q (List.mem_cons_of_mem r hq)
      have IH := sortByScoreDesc_perfect rest hrest
      have hstep : ∀ x : ClassRecord, sortByScoreDesc (x :: rest) =
          List.orderedInsert (fun a b => b.score ≤ a.score) x (sortByScoreDesc rest) :=
        fun x => rfl
      rcases hperf r (List.mem_cons_self r rest) with rfl | rfl
      · rw [hstep, IH, orderedInsert_pos_perfect]
        · have h1 : countPos (⟨true, 1⟩ :: rest) = countPos rest + 1 := by
            simp [countPos, List.filter_cons]
          have h2 : countNeg (⟨true, 1⟩ :: rest) = countNeg rest := by
            simp [countNeg, List.filter_cons]
          rw [h1, h2, List.replicate_succ, List.cons_append]
        · intro q hq
          rcases List.mem_append.mp hq with hq' | hq'
          · rw [List.eq_of_mem_replicate hq']
          · rw [List.eq_of_mem_replicate hq']
            norm_num
      · rw [hstep, IH, orderedInsert_neg_perfect]
        have h1 : countPos (⟨false, 0⟩ :: rest) = countPos rest := by
          simp [countPos, List.filter_cons]
        have h2 : countNeg (⟨false, 0⟩ :: rest) = countNeg rest + 1 := by
          simp [countNeg, List.filter_cons]
        rw [h1, h2]

theorem rocSweep_J_le (P N : ℚ) (hP : 0 < P) (hN : 0 < N) :
    ∀ (l : List ClassRecord) (tp fp : ℕ),
      (tp : ℚ) + ((l.filter (fun r => r.label)).length : ℚ) ≤ P →
      ∀ p ∈ rocSweep P N l tp fp, youdenJ p ≤ 1
  | [], _, _, _ => by simp [rocSweep]
  | r :: rest, tp, fp, hbound => by
      intro p hp
      by_cases hb : r.label = true
      · have hcTq : (((r :: rest).filter (fun q => q.label)).length : ℚ) =
            ((rest.filter (fun q => q.label)).length : ℚ) + 1 := by
          push_cast [List.filter_cons, hb]
          simp
        rw [hcTq] at hbound
        have hcT0 : (0 : ℚ) ≤ ((rest.filter (fun q => q.label)).length : ℚ) := by positivity
        simp only [rocSweep, hb, if_true] at hp
        rcases List.mem_cons.mp hp with rfl | htail
        · have h1 : ((tp + 1 : ℕ) : ℚ) / P ≤ 1 := by
            rw [div_le_one hP]; push_cast; linarith
          have h2 : (0 : ℚ) ≤ (fp : ℚ) / N := by positivity
          simp only [youdenJ]
          linarith
        · exact rocSweep_J_le P N hP hN rest (tp + 1) fp (by push_cast; linarith) p htail
      · have hb2 : r.label = false := by
          cases h : r.label
          · rfl
          · exact absurd h hb
        have hcTq : (((r :: rest).filter (fun q => q.label)).length : ℚ) =
            ((rest.filter (fun q => q.label)).length : ℚ) := by
          simp [List.filter_cons, hb2]
        rw [hcTq] at hbound
        have hcT0 : (0 : ℚ) ≤ ((rest.filter (fun q => q.label)).length : ℚ) := by positivity
        simp only [rocSweep, hb2, Bool.false_eq_true, if_false] at hp
        rcases List.mem_cons.mp hp with rfl | htail
        · have h1 : (tp : ℚ) / P ≤ 1 := by
            rw [div_le_one hP]; linarith
          have h2 : (0 : ℚ) ≤ ((fp + 1 : ℕ) : ℚ) / N := by positivity
          simp only [youdenJ]
          linarith
        · exact rocSweep_J_le P N hP hN rest tp (fp + 1) (by linarith) p htail

theorem rocSweep_mem_last_pos (P N : ℚ) :
    ∀ (k : ℕ) (rest : List ClassRecord) (tp fp : ℕ), 0 < k →
      (⟨(fp : ℚ) / N, ((tp + k : ℕ) : ℚ) / P, 1⟩ : ROCPoint) ∈
        rocSweep P N (List.replicate k ⟨true, 1⟩ ++ rest) tp fp
  | 0, _, _, _, h => absurd h (lt_irrefl 0)
  | k + 1, rest, tp, fp, _ => by
      rw [List.replicate_succ, List.cons_append]
      have hstep : rocSweep P N
            ((⟨true, 1⟩ : ClassRecord) :: (List.replicate k ⟨true, 1⟩ ++ rest)) tp fp =
          ⟨(fp : ℚ) / N, ((tp + 1 : ℕ) : ℚ) / P, 1⟩ ::
            rocSweep P N (List.replicate k ⟨true, 1⟩ ++ rest) (tp + 1) fp := rfl
      rw [hstep]
      rcases Nat.eq_zero_or_pos k with rfl | hk
      · exact List.mem_cons_self _ _
      · have hmem := rocSweep_mem_last_pos P N k rest (tp + 1) fp hk
        have harith : tp + 1 + k = tp + (k + 1) := by omega
        rw [harith] at hmem
        exact List.mem_cons_of_mem _ hmem

theorem rectLoop_replicate_true (P N : ℚ) :
    ∀ (k : ℕ) (rest : List ClassRecord) (tp fp : ℕ),
      rectLoop P N (List.replicate k ⟨true, 1⟩ ++ rest) tp fp ((fp : ℚ) / N) =
        rectLoop P N rest (tp + k) fp ((fp : ℚ) / N)
  | 0, rest, tp, fp => by simp
  | k + 1, rest, tp, fp => by
      rw [List.replicate_succ, List.cons_append]
      have hstep : rectLoop P N
            ((⟨true, 1⟩ : ClassRecord) :: (List.replicate k ⟨true, 1⟩ ++ rest)) tp fp
            ((fp : ℚ) / N) =
          ((tp + 1 : ℕ) : ℚ) / P * ((fp : ℚ) / N - (fp : ℚ) / N) +
            rectLoop P N (List.replicate k ⟨true, 1⟩ ++ rest) (tp + 1) fp ((fp : ℚ) / N) := rfl
      rw [hstep, rectLoop_replicate_true P N k rest (tp + 1) fp]
      have harith : tp + 1 + k = tp + (k + 1) := by omega
      rw [harith, sub_self, mul_zero, zero_add]

theorem rectLoop_replicate_false (P N : ℚ) (hP : P ≠ 0) :
    ∀ (k : ℕ) (tp fp : ℕ), (tp : ℚ) = P →
      rectLoop P N (List.replicate k ⟨false, 0⟩) tp fp ((fp : ℚ) / N) = (k : ℚ) / N
  | 0, tp, fp, _ => by simp [rectLoop]
  | k + 1, tp, fp, htp => by
      rw [List.replicate_succ]
      have hstep : rectLoop P N
            ((⟨false, 0⟩ : ClassRecord) :: List.replicate k ⟨false, 0⟩) tp fp
            ((fp : ℚ) / N) =
          (tp : ℚ) / P * (((fp + 1 : ℕ) : ℚ) / N - (fp : ℚ) / N) +
            rectLoop P N (List.replicate k ⟨false, 0⟩) tp (fp + 1) (((fp + 1 : ℕ) : ℚ) / N) := rfl
      rw [hstep, rectLoop_replicate_false P N hP k tp (fp + 1) htp, htp, div_self hP]
      push_cast
      ring

/-- Claim C7 (confirmed): for a dataset with at least one positive and at
least one negative, the trapezoidal AUC of `createROCCurve` lies in
`[0, 1]`; the selected optimal point is the first point of the sweep whose
Youden J attains the maximum (the strict `j > maxJ` update keeps the first
maximum on ties) and its J equals that maximum; and for a perfect
classifier (every positive scores 1, every negative scores 0) the AUC is
`1` and the optimal point's Youden J is `1`. -/
theorem C7_roc (data : List ClassRecord) (hp : 0 < countPos data) (hn : 0 < countNeg data) :
    (0 ≤ rocAUC data ∧ rocAUC data ≤ 1) ∧
    ((rocPoints data).find? (fun p => decide ((rocOptimal data).1 ≤ youdenJ p)) =
        some (rocOptimal data).2 ∧
      youdenJ (rocOptimal data).2 = (rocOptimal data).1) ∧
    ((∀ r ∈ data, r.score = if r.label then 1 else 0) →
      rocAUC data = 1 ∧ youdenJ (rocOptimal data).2 = 1) := by
  have hpsort : 0 < countPos (sortByScoreDesc data) := by
    rw [countPos_sortByScoreDesc]; exact hp
  have hnsort : 0 < countNeg (sortByScoreDesc data) := by
    rw [countNeg_sortByScoreDesc]; exact hn
  have hPq : (0 : ℚ) < ((countPos (sortByScoreDesc data) : ℕ) : ℚ) := by exact_mod_cast hpsort
  have hNq : (0 : ℚ) < ((countNeg (sortByScoreDesc data) : ℕ) : ℚ) := by exact_mod_cast hnsort
  have hPq2 : (0 : ℚ) < ((countPos data : ℕ) : ℚ) := by exact_mod_cast hp
  have hNq2 : (0 : ℚ) < ((countNeg data : ℕ) : ℚ) := by exact_mod_cast hn
  have haucRect : rocAUC data =
      rectLoop (countPos (sortByScoreDesc data)) (countNeg (sortByScoreDesc data))
        (sortByScoreDesc data) 0 0 0 := by
    simp only [rocAUC]
    have h := trapSum_eq_rectLoop (countPos (sortByScoreDesc data))
      (countNeg (sortByScoreDesc data)) (sortByScoreDesc data) 0 0 1
    simpa using h
  have hyp0 : ((0 : ℕ) : ℚ) +
      (((sortByScoreDesc data).filter (fun r => r.label)).length : ℚ) ≤
      ((countPos (sortByScoreDesc data) : ℕ) : ℚ) := by
    simp [countPos]
  have hbounds := rectLoop_bounds _ _ hPq hNq (sortByScoreDesc data) 0 0 hyp0
  simp only [Nat.cast_zero, zero_div] at hbounds
  have hupper : ((((sortByScoreDesc data).filter (fun r => !r.label)).length : ℚ)) /
      ((countNeg (sortByScoreDesc data) : ℕ) : ℚ) = 1 := by
    have hcf : (((sortByScoreDesc data).filter (fun r => !r.label)).length : ℚ) =
        ((countNeg (sortByScoreDesc data) : ℕ) : ℚ) := by
      simp [countNeg]
    rw [hcf, div_self (ne_of_gt hNq)]
  have hpoints0 : rocPoints data = (⟨0, 0, 1⟩ : ROCPoint) ::
      rocSweep (countPos (sortByScoreDesc data)) (countNeg (sortByScoreDesc data))
        (sortByScoreDesc data) 0 0 := rfl
  have S := optLoop_spec (rocPoints data) (-1) ⟨0, 0, 1⟩
  have hpt0mem : (⟨0, 0, 1⟩ : ROCPoint) ∈ rocPoints data := by
    rw [hpoints0]; exact List.mem_cons_self _ _
  have hJpt0 : youdenJ (⟨0, 0, 1⟩ : ROCPoint) = 0 := by simp [youdenJ]
  have hM0 : 0 ≤ (optLoop (rocPoints data) (-1) ⟨0, 0, 1⟩).1 := by
    have h := S.2.1 _ hpt0mem
    rw [hJpt0] at h
    exact h
  obtain ⟨hfind, hJO⟩ :
      (rocPoints data).find?
          (fun p => decide ((optLoop (rocPoints data) (-1) ⟨0, 0, 1⟩).1 ≤ youdenJ p)) =
        some (optLoop (rocPoints data) (-1) ⟨0, 0, 1⟩).2 ∧
      youdenJ (optLoop (rocPoints data) (-1) ⟨0, 0, 1⟩).2 =
        (optLoop (rocPoints data) (-1) ⟨0, 0, 1⟩).1 := by
    rcases S.2.2 with ⟨hM, _⟩ | ⟨_, hfind, hJO⟩
    · exfalso; rw [hM] at hM0; norm_num at hM0
    · exact ⟨hfind, hJO⟩
  have hall : ∀ p ∈ rocPoints data, youdenJ p ≤ 1 := by
    intro p hpm
    rw [hpoints0] at hpm
    rcases List.mem_cons.mp hpm with rfl | htail
    · rw [hJpt0]; norm_num
    · exact rocSweep_J_le _ _ hPq hNq (sortByScoreDesc data) 0 0 hyp0 p htail
  refine ⟨⟨?_, ?_⟩, ⟨hfind, hJO⟩, fun hscore => ?_⟩
  · rw [haucRect]; exact hbounds.1
  · rw [haucRect]
    exact le_of_le_of_eq hbounds.2 hupper
  · have hperf : ∀ r ∈ data, r = ⟨true, 1⟩ ∨ r = ⟨false, 0⟩ := by
      intro r hr
      have hs := hscore r hr
      cases r with
      | mk lab sc =>
          cases lab
          · right
            simp only [Bool.false_eq_true, if_false] at hs
            rw [hs]
          · left
            simp only [if_true] at hs
            rw [hs]
    have hsort := sortByScoreDesc_perfect data hperf
    constructor
    · rw [haucRect, hsort, countPos_blocks, countNeg_blocks]
      have htrue := rectLoop_replicate_true ((countPos data : ℕ) : ℚ)
        ((countNeg data : ℕ) : ℚ) (countPos data)
        (List.replicate (countNeg data) ⟨false, 0⟩) 0 0
      simp only [Nat.cast_zero, zero_div] at htrue
      rw [htrue]
      have hfalse := rectLoop_replicate_false ((countPos data : ℕ) : ℚ)
        ((countNeg data : ℕ) : ℚ) (ne_of_gt hPq2) (countNeg data)
        (0 + countPos data) 0 (by push_cast; ring)
      simp only [Nat.cast_zero, zero_div] at hfalse
      rw [hfalse]
      exact div_self (ne_of_gt hNq2)
    · have hpoints1 : rocPoints data = (⟨0, 0, 1⟩ : ROCPoint) ::
          rocSweep ((countPos data : ℕ) : ℚ) ((countNeg data : ℕ) : ℚ)
            (List.replicate (countPos data) ⟨true, 1⟩ ++
              List.replicate (countNeg data) ⟨false, 0⟩) 0 0 := by
        rw [hpoints0, hsort, countPos_blocks, countNeg_blocks]
      have hstar := rocSweep_mem_last_pos ((countPos data : ℕ) : ℚ)
        ((countNeg data : ℕ) : ℚ) (countPos data)
        (List.replicate (countNeg data) ⟨false, 0⟩) 0 0 hp
      have hstarmem : (⟨((0 : ℕ) : ℚ) / ((countNeg data : ℕ) : ℚ),
          ((0 + countPos data : ℕ) : ℚ) / ((countPos data : ℕ) : ℚ), 1⟩ : ROCPoint) ∈
          rocPoints data := by
        rw [hpoints1]
        exact List.mem_cons_of_mem _ hstar
      have hJstar : youdenJ (⟨((0 : ℕ) : ℚ) / ((countNeg data : ℕ) : ℚ),
          ((0 + countPos data : ℕ) : ℚ) / ((countPos data : ℕ) : ℚ), 1⟩ : ROCPoint) = 1 := by
        simp only [youdenJ]
        push_cast
        rw [zero_add, zero_div, div_self (ne_of_gt hPq2), sub_zero]
      have h1M : 1 ≤ (optLoop (rocPoints data) (-1) ⟨0, 0, 1⟩).1 := by
        have h := S.2.1 _ hstarmem
        rw [hJstar] at h
        exact h
      have hOmem : (optLoop (rocPoints data) (-1) ⟨0, 0, 1⟩).2 ∈ rocPoints data :=
        List.mem_of_find?_eq_some hfind
      have hM1 : (optLoop (rocPoints data) (-1) ⟨0, 0, 1⟩).1 ≤ 1 :=
        hJO ▸ hall _ hOmem
      have hMeq : (optLoop (rocPoints data) (-1) ⟨0, 0, 1⟩).1 = 1 :=
        le_antisymm hM1 h1M
      show youdenJ (optLoop (rocPoints data) (-1) ⟨0, 0, 1⟩).2 = 1
      rw [hJO, hMeq]

/-- Witness for C7 at the perfect two-patient dataset. -/
theorem C7_roc_witness :
    (0 < countPos [⟨true, 1⟩, ⟨false, 0⟩] ∧ 0 < countNeg [⟨true, 1⟩, ⟨false, 0⟩] ∧
      (∀ r ∈ [ClassRecord.mk true 1, ClassRecord.mk false 0],
        r.score = if r.label then 1 else 0)) ∧
    (rocAUC [⟨true, 1⟩, ⟨false, 0⟩] = 1 ∧
      youdenJ (rocOptimal [⟨true, 1⟩, ⟨false, 0⟩]).2 = 1) :=
  ⟨⟨by decide, by decide, by decide⟩,
   (C7_roc [⟨true, 1⟩, ⟨false, 0⟩] (by decide) (by decide)).2.2 (by decide)⟩

theorem apLoop_bounds (P : ℕ) (hP : 0 < P) :
    ∀ (l : List ClassRecord) (tp fp : ℕ) (pr a : ℚ),
      (tp : ℚ) + ((l.filter (fun r => r.label)).length : ℚ) ≤ (P : ℚ) →
      0 ≤ a → a ≤ pr → pr ≤ 1 →
      ∃ b : ℚ, apLoop P l tp fp (.fin pr) (.fin a) = .fin b ∧ 0 ≤ b ∧ b ≤ 1
  | [], tp, fp, pr, a, _, h0, h1, h2 => ⟨a, rfl, h0, le_trans h1 h2⟩
  | r :: rest, tp, fp, pr, a, hbound, h0, h1, h2 => by
      have hPpos : (0 : ℚ) < ((P : ℕ) : ℚ) := by exact_mod_cast hP
      have hPQ : ((P : ℕ) : ℚ) ≠ 0 := ne_of_gt hPpos
      by_cases hb : r.label = true
      · have hcTq : (((r :: rest).filter (fun q => q.label)).length : ℚ) =
            ((rest.filter (fun q => q.label)).length : ℚ) + 1 := by
          push_cast [List.filter_cons, hb]
          simp
        rw [hcTq] at hbound
        have hcT0 : (0 : ℚ) ≤ ((rest.filter (fun q => q.label)).length : ℚ) := by positivity
        have htp1 : ((tp + 1 : ℕ) : ℚ) ≤ ((P : ℕ) : ℚ) := by push_cast; linarith
        have hden : ((tp + 1 : ℕ) : ℚ) + ((fp : ℕ) : ℚ) ≠ 0 := by push_cast; positivity
        have hdenpos : (0 : ℚ) < ((tp + 1 : ℕ) : ℚ) + ((fp : ℕ) : ℚ) := by push_cast; positivity
        have hbound' : ((tp + 1 : ℕ) : ℚ) +
            ((rest.filter (fun q => q.label)).length : ℚ) ≤ ((P : ℕ) : ℚ) := by
          push_cast
          linarith
        simp only [apLoop, hb, if_true]
        rw [JSNum.div_fin _ hden, JSNum.div_fin _ hPQ, JSNum.lt_fin]
        by_cases hlt : pr < ((tp + 1 : ℕ) : ℚ) / ((P : ℕ) : ℚ)
        · rw [if_pos (decide_eq_true hlt), JSNum.sub_fin, JSNum.mul_fin, JSNum.add_fin]
          have hprec0 : (0 : ℚ) ≤ ((tp + 1 : ℕ) : ℚ) / (((tp + 1 : ℕ) : ℚ) + ((fp : ℕ) : ℚ)) := by
            positivity
          have hprec1 : ((tp + 1 : ℕ) : ℚ) / (((tp + 1 : ℕ) : ℚ) + ((fp : ℕ) : ℚ)) ≤ 1 := by
            rw [div_le_one hdenpos]
            have : (0 : ℚ) ≤ ((fp : ℕ) : ℚ) := by positivity
            linarith
          have hdpos : 0 < ((tp + 1 : ℕ) : ℚ) / ((P : ℕ) : ℚ) - pr := sub_pos.mpr hlt
          refine apLoop_bounds P hP rest (tp + 1) fp _ _ hbound' ?_ ?_ ?_
          · have := mul_nonneg hprec0 (le_of_lt hdpos)
            linarith
          · have hmul : ((tp + 1 : ℕ) : ℚ) / (((tp + 1 : ℕ) : ℚ) + ((fp : ℕ) : ℚ)) *
                (((tp + 1 : ℕ) : ℚ) / ((P : ℕ) : ℚ) - pr) ≤
                ((tp + 1 : ℕ) : ℚ) / ((P : ℕ) : ℚ) - pr :=
              mul_le_of_le_one_left (le_of_lt hdpos) hprec1
            linarith
          · rw [div_le_one hPpos]
            exact htp1
        · rw [if_neg (by simpa using hlt)]
          exact apLoop_bounds P hP rest (tp + 1) fp pr a hbound' h0 h1 h2
      · have hb2 : r.label = false := by
          cases h : r.label
          · rfl
          · exact absurd h hb
        have hcTq : (((r :: rest).filter (fun q => q.label)).length : ℚ) =
            ((rest.filter (fun q => q.label)).length : ℚ) := by
          simp [List.filter_cons, hb2]
        rw [hcTq] at hbound
        have hcT0 : (0 : ℚ) ≤ ((rest.filter (fun q => q.label)).length : ℚ) := by positivity
        have htp : ((tp : ℕ) : ℚ) ≤ ((P : ℕ) : ℚ) := by linarith
        have hden : ((tp : ℕ) : ℚ) + ((fp + 1 : ℕ) : ℚ) ≠ 0 := by push_cast; positivity
        have hdenpos : (0 : ℚ) < ((tp : ℕ) : ℚ) + ((fp + 1 : ℕ) : ℚ) := by push_cast; positivity
        simp only [apLoop, hb2, Bool.false_eq_true, if_false]
        rw [JSNum.div_fin _ hden, JSNum.div_fin _ hPQ, JSNum.lt_fin]
        by_cases hlt : pr < ((tp : ℕ) : ℚ) / ((P : ℕ) : ℚ)
        · rw [if_pos (decide_eq_true hlt), JSNum.sub_fin, JSNum.mul_fin, JSNum.add_fin]
          have hprec0 : (0 : ℚ) ≤ ((tp : ℕ) : ℚ) / (((tp : ℕ) : ℚ) + ((fp + 1 : ℕ) : ℚ)) := by
            positivity
          have hprec1 : ((tp : ℕ) : ℚ) / (((tp : ℕ) : ℚ) + ((fp + 1 : ℕ) : ℚ)) ≤ 1 := by
            rw [div_le_one hdenpos]
            have : (0 : ℚ) ≤ ((fp + 1 : ℕ) : ℚ) := by positivity
            linarith
          have hdpos : 0 < ((tp : ℕ) : ℚ) / ((P : ℕ) : ℚ) - pr := sub_pos.mpr hlt
          refine apLoop_bounds P hP rest tp (fp + 1) _ _ hbound ?_ ?_ ?_
          · have := mul_nonneg hprec0 (le_of_lt hdpos)
            linarith
          · have hmul : ((tp : ℕ) : ℚ) / (((tp : ℕ) : ℚ) + ((fp + 1 : ℕ) : ℚ)) *
                (((tp : ℕ) : ℚ) / ((P : ℕ) : ℚ) - pr) ≤
                ((tp : ℕ) : ℚ) / ((P : ℕ) : ℚ) - pr :=
              mul_le_of_le_one_left (le_of_lt hdpos) hprec1
            linarith
          · rw [div_le_one hPpos]
            exact htp
        · rw [if_neg (by simpa using hlt)]
          exact apLoop_bounds P hP rest tp (fp + 1) pr a hbound h0 h1 h2

theorem apLoop_no_pos :
    ∀ (l : List ClassRecord) (fp : ℕ) (ap : JSNum),
      (∀ r ∈ l, r.label = false) →
      apLoop 0 l 0 fp (.fin 0) ap = ap
  | [], _, _, _ => rfl
  | r :: rest, fp, ap, hall => by
      have hb := hall r (List.mem_cons_self r rest)
      simp only [apLoop, hb, Bool.false_eq_true, if_false]
      have hnan : JSNum.div (.fin ((0 : ℕ) : ℚ)) (.fin ((0 : ℕ) : ℚ)) = JSNum.nan := by
        simp [JSNum.div]
      rw [hnan]
      rw [show JSNum.lt (.fin 0) JSNum.nan = false from rfl]
      simp only [Bool.false_eq_true, if_false]
      exact apLoop_no_pos rest (fp + 1) ap
        (fun q hq => hall q (List.mem_cons_of_mem r hq))

/-- Claim C8 (confirmed): for a dataset with at least one positive, the
Average Precision of `createPRCurve` is a finite value in `[0, 1]` (each
accumulated term is `precision * (recall - prevRecall)` with
`precision ∈ [0, 1]` and the recall steps strictly increasing up to at most
1); with no positives, `recall = tp / totalPos` is the NaN of `0 / 0`, the
guard `recall > prevRecall` is always false for NaN, and the loop
terminates with the defined result `ap = 0` - the division by zero never
propagates uncontrolled. -/
theorem C8_pr_ap (data : List ClassRecord) :
    (0 < countPos data → ∃ b : ℚ, prAP data = .fin b ∧ 0 ≤ b ∧ b ≤ 1) ∧
    (countPos data = 0 → prAP data = .fin 0) := by
  constructor
  · intro hpos
    have hpsort : 0 < countPos (sortByScoreDesc data) := by
      rw [countPos_sortByScoreDesc]; exact hpos
    have hbound : ((0 : ℕ) : ℚ) +
        (((sortByScoreDesc data).filter (fun r => r.label)).length : ℚ) ≤
        ((countPos (sortByScoreDesc data) : ℕ) : ℚ) := by
      simp [countPos]
    have h := apLoop_bounds (countPos (sortByScoreDesc data)) hpsort
      (sortByScoreDesc data) 0 0 0 0 hbound (le_refl 0) (le_refl 0) (by norm_num)
    exact h
  · intro h0
    have hs : countPos (sortByScoreDesc data) = 0 := by
      rw [countPos_sortByScoreDesc]; exact h0
    have hnil : (sortByScoreDesc data).filter (fun r => r.label) = [] :=
      List.length_eq_zero.mp hs
    have hall : ∀ r ∈ sortByScoreDesc data, r.label = false := by
      intro r hr
      by_contra hcon
      have hlab : r.label = true := by
        cases h : r.label
        · exact absurd h hcon
        · rfl
      have : r ∈ (sortByScoreDesc data).filter (fun q => q.label) :=
        List.mem_filter.mpr ⟨hr, hlab⟩
      rw [hnil] at this
      exact absurd this (List.not_mem_nil r)
    show apLoop (countPos (sortByScoreDesc data)) (sortByScoreDesc data) 0 0
        (.fin 0) (.fin 0) = .fin 0
    rw [hs]
    exact apLoop_no_pos (sortByScoreDesc data) 0 (.fin 0) hall

/-- Witness for C8 at the concrete one-positive dataset. -/
theorem C8_pr_ap_witness :
    0 < countPos [⟨true, 1⟩] ∧
    (∃ b : ℚ, prAP [⟨true, 1⟩] = .fin b ∧ 0 ≤ b ∧ b ≤ 1) :=
  ⟨by decide, (C8_pr_ap [⟨true, 1⟩]).1 (by decide)⟩
